import Mathlib

/-!
Shallow embedding of the `doctor` library (files `doctor/_schema.py`,
`doctor/_util.py`, `doctor/_annotation.py`).

Python dictionaries are modelled as insertion-ordered association lists
over `String` keys and JSON values.  Fallible Python code (code that can
raise) is modelled with `Except PyError`.  The external `jsonschema`
validator is kept abstract (a `JValue → JValue → Bool` parameter); its
reference resolver is modelled for the `#/definitions/<name>` fragment
form, which the spec states is the only reference syntax in the core
contract.
-/

set_option autoImplicit false
set_option linter.unusedVariables false

namespace Doctor

/-- A JSON value (schema documents, call arguments, results). -/
inductive JValue where
  | null
  | bool (b : Bool)
  | num (n : Int)
  | str (s : String)
  | arr (xs : List JValue)
  | obj (fields : List (String × JValue))

/-- The Python exceptions the modelled code can raise. -/
inductive PyError where
  | typeError
  | keyError
  | refResolutionError
  | validationError
  deriving DecidableEq, Repr

/-- A Python dict holding a JSON-schema fragment. -/
abbrev SchemaDict := List (String × JValue)

/-- Python `d[k]` lookup on an insertion-ordered dict, as an `Option`. -/
def alookup (k : String) : List (String × JValue) → Option JValue
  | [] => none
  | (k', v) :: rest => if k' = k then some v else alookup k rest

/-- Whether a dict has an entry for key `k` (Python `k in d`). -/
def hasKey (d : List (String × JValue)) (k : String) : Bool :=
  d.any (fun p => decide (p.1 = k))

/-- Python `d[k] = v` on an insertion-ordered dict: update in place if the
key exists, otherwise append at the end. -/
def dictSet (d : List (String × JValue)) (k : String) (v : JValue) :
    List (String × JValue) :=
  if hasKey d k then
    d.map (fun p => if p.1 = k then (k, v) else p)
  else
    d ++ [(k, v)]

/-- `true` iff the `Except` value is `ok`. -/
def exOk {α : Type} : Except PyError α → Bool
  | .ok _ => true
  | .error _ => false

/-- `doctor/_schema.py`: `Schema` wraps a raw schema document together
with a resolver and a validator.  Only the raw document is needed here;
the resolver is modelled by `resolveDef` below and the validator is kept
abstract where it is used. -/
structure Schema where
  raw_schema : JValue

/-- The reference string `make_schema_dict` builds for a definition name:
`'#/definitions/{}'.format(name)`. -/
def defRef (name : String) : String := "#/definitions/" ++ name

/-- Key lookup inside a JSON object value. -/
def jGet (k : String) : JValue → Option JValue
  | .obj fields => alookup k fields
  | _ => none

/-- `Schema.resolve` on a `#/definitions/<name>` fragment.  The real code
delegates to `jsonschema.RefResolver`, an external collaborator; per the
spec the core contract only uses `#/definitions/<name>` fragments, which
resolve by looking up `name` under the document's `definitions` block and
raise `RefResolutionError` when absent.  The model takes the definition
name directly (the repository always builds the ref as `defRef name`). -/
def Schema.resolveDef (s : Schema) (name : String) : Except PyError JValue :=
  match jGet "definitions" s.raw_schema with
  | none => .error .refResolutionError
  | some defs =>
    match jGet name defs with
    | none => .error .refResolutionError
    | some v => .ok v

/-- The `names` argument of `make_schema_dict` (and the `args` / `result`
arguments of `annotate`): `UNSET`, `None`, a string, a dict, or a list of
strings.  Any other Python type raises `TypeError`; that open-world case
is not representable in this closed variant. -/
inductive Spec where
  | unset
  | none
  | str (s : String)
  | dict (d : SchemaDict)
  | list (names : List String)

/-- The value `make_schema_dict` returns: `UNSET`, `None`, or a dict. -/
inductive MsdOut where
  | unset
  | none
  | dict (d : SchemaDict)

/-- The schema fragment `{'$ref': '#/definitions/<name>'}`. -/
def refSchema (name : String) : JValue :=
  .obj [("$ref", .str (defRef name))]

/-- The loop in the `list` branch of `make_schema_dict`: resolve each
name eagerly (propagating `RefResolutionError`) and set
`properties[name] = {'$ref': ref}` in order.  `acc` is the `properties`
dict built so far. -/
def buildProps (schema : Schema) (acc : List (String × JValue)) :
    List String → Except PyError (List (String × JValue))
  | [] => .ok acc
  | n :: ns =>
    match schema.resolveDef n with
    | .error e => .error e
    | .ok _ => buildProps schema (dictSet acc n (refSchema n)) ns

/-- Python truthiness of the `required_names` argument (`None` and the
empty list are falsy). -/
def optTruthy : Option (List String) → Bool
  | Option.none => false
  | some l => !l.isEmpty

/-- `doctor/_util.py`: `make_schema_dict(schema, usage, names,
required_names)`. -/
def make_schema_dict (schema : Schema) (usage : String) (names : Spec)
    (required_names : Option (List String)) : Except PyError MsdOut :=
  match names with
  | .unset => .ok .unset
  | .none => .ok .none
  | .str name =>
    match schema.resolveDef name with
    | .error e => .error e
    | .ok _ => .ok (.dict [("$ref", .str (defRef name))])
  | .dict d => .ok (.dict d)
  | .list ns =>
    match buildProps schema [] ns with
    | .error e => .error e
    | .ok props =>
      let base : SchemaDict :=
        [("type", .str "object"),
         ("additionalProperties", .bool true),
         ("properties", .obj props)]
      if optTruthy required_names then
        .ok (.dict (base ++
          [("required", .arr ((required_names.getD []).map .str))]))
      else
        .ok (.dict base)

/-- A sample source schema used to instantiate hypothesis-bearing
theorems at concrete inputs: definitions `a`, `b`, `c`, `d`. -/
def sampleSchema : Schema :=
  ⟨.obj [("definitions", .obj
    [("a", .obj [("type", .str "string")]),
     ("b", .obj [("type", .str "boolean")]),
     ("c", .obj [("type", .str "integer")]),
     ("d", .obj [("type", .str "integer")])])]⟩

/-- The result of `inspect.getargspec` on the underlying function, plus
whether the decorated callable was itself a plain function (Python:
`inspect.isfunction`).  `default_values` models the defaults tuple; the
empty list models both `None` and the empty tuple (both falsy). -/
structure FuncInfo where
  arg_names : List String
  args_name : Option String
  kwargs_name : Option String
  default_values : List JValue
  isPlainFunction : Bool

/-- `doctor/_annotation.py`: the `Annotation` record attached to a
decorated callable.  The callable fields (`annotated_func`, `func`) carry
no schema content and are supplied separately where calls are modelled;
an `args_schema` of `Option.none` models Python `None` (validation
disabled).  `result_schema` likewise. -/
structure Annot where
  is_method : Bool
  arg_names : List String
  args_name : Option String
  kwargs_name : Option String
  default_values : List JValue
  args_schema : Option SchemaDict
  result_schema : Option SchemaDict

/-- Python `name in v` for the membership test
`name not in self.args_schema['properties']`: key membership for a dict,
element membership for a list, substring test for a string (an empty
`name` diverges from Python there, which treats the empty string as a
substring of everything; no caller passes an empty parameter name), and
`TypeError` otherwise. -/
def jContains (v : JValue) (name : String) : Except PyError Bool :=
  match v with
  | .obj fields => .ok (hasKey fields name)
  | .arr xs => .ok (xs.any (fun x =>
      match x with | .str s => s == name | _ => false))
  | .str s => .ok (decide ((s.splitOn name).length > 1))
  | _ => .error .typeError

/-- The `for i, name in enumerate(self.arg_names)` loop of
`collect_properties`.  The subscript `self.args_schema['properties']`
happens inside the loop body, so a missing `'properties'` key raises
`KeyError` only when at least one name is iterated. -/
def collectLoop (args_schema : SchemaDict) (call_args : List JValue)
    (call_kwargs : List (String × JValue)) :
    List String → Nat → List (String × JValue) →
    Except PyError (List (String × JValue))
  | [], _, acc => .ok acc
  | name :: rest, i, acc =>
    match alookup "properties" args_schema with
    | Option.none => .error .keyError
    | some propsV =>
      match jContains propsV name with
      | .error e => .error e
      | .ok mem =>
        if !mem then
          collectLoop args_schema call_args call_kwargs rest (i + 1) acc
        else if i < call_args.length then
          collectLoop args_schema call_args call_kwargs rest (i + 1)
            (dictSet acc name (call_args.getD i .null))
        else
          match alookup name call_kwargs with
          | some v =>
            collectLoop args_schema call_args call_kwargs rest (i + 1)
              (dictSet acc name v)
          | Option.none =>
            collectLoop args_schema call_args call_kwargs rest (i + 1) acc

/-- `Annotation.collect_properties(call_args, call_kwargs)` with the
annotation's `args_schema` and `arg_names` passed explicitly. -/
def collect_properties (args_schema : SchemaDict) (arg_names : List String)
    (call_args : List JValue) (call_kwargs : List (String × JValue)) :
    Except PyError (List (String × JValue)) :=
  collectLoop args_schema call_args call_kwargs arg_names 0 []

/-- Convert a `make_schema_dict` result to the stored schema field.
`UNSET` never reaches storage on the args side (`Annotation.create`
derives a schema for it first); on the result side it would require a
caller to pass `result=UNSET` explicitly, which no caller does (the
Python default is `None`), so it is mapped to disabled. -/
def msdToOpt : MsdOut → Option SchemaDict
  | .unset => Option.none
  | .none => Option.none
  | .dict d => some d

/-- `Annotation.create_args_schema(schema, arg_names, default_values,
is_method)`. -/
def create_args_schema (schema : Schema) (arg_names : List String)
    (default_values : List JValue) (is_method : Bool) :
    Except PyError (Option SchemaDict) :=
  let arg_names := if is_method then arg_names.drop 1 else arg_names
  if arg_names.isEmpty then
    .ok Option.none
  else
    let required_arg_names :=
      if default_values.isEmpty then arg_names
      else arg_names.take (arg_names.length - default_values.length)
    match make_schema_dict schema "args" (.list arg_names)
        (some required_arg_names) with
    | .error e => .error e
    | .ok out => .ok (msdToOpt out)

/-- `Annotation.create(_callable, schema, args_schema, result_schema,
is_method)`.  The `callable`/`Schema` type checks are enforced by Lean's
types; a callable that is not a plain function forces `is_method = True`
and is reflected through its `__call__` implementation, which `FuncInfo`
already represents. -/
def Annot.create (schema : Schema) (fi : FuncInfo) (args_schema : MsdOut)
    (result_schema : Option SchemaDict) (is_method : Bool) :
    Except PyError Annot :=
  let is_method := if fi.isPlainFunction then is_method else true
  let args' : Except PyError (Option SchemaDict) :=
    match args_schema with
    | .unset => create_args_schema schema fi.arg_names fi.default_values
        is_method
    | .none => .ok Option.none
    | .dict d => .ok (some d)
  match args' with
  | .error e => .error e
  | .ok as =>
    .ok { is_method := is_method, arg_names := fi.arg_names,
          args_name := fi.args_name, kwargs_name := fi.kwargs_name,
          default_values := fi.default_values, args_schema := as,
          result_schema := result_schema }

/-- `annotate(schema, args, required_args, result, is_method)`: the
decorator factory.  Both schemas are built eagerly, before the decorator
(and hence any wrapper) exists; the returned function models applying the
decorator to a callable reflected as `fi`. -/
def annotate (schema : Schema) (args : Spec)
    (required_args : Option (List String)) (result : Spec)
    (is_method : Bool) :
    Except PyError (FuncInfo → Except PyError Annot) :=
  match make_schema_dict schema "args" args required_args with
  | .error e => .error e
  | .ok args_schema =>
    match make_schema_dict schema "result" result Option.none with
    | .error e => .error e
    | .ok result_schema =>
      .ok (fun fi =>
        Annot.create schema fi args_schema (msdToOpt result_schema)
          is_method)

/-- The result-validation tail of the wrapper: `if
annotation.result_schema is not None: schema.validator.validate(result,
annotation.result_schema)`. -/
def resultCheck (validate : JValue → JValue → Bool)
    (result_schema : Option SchemaDict) (result : JValue) :
    Except PyError JValue :=
  match result_schema with
  | Option.none => .ok result
  | some rs =>
    if validate result (.obj rs) then .ok result
    else .error .validationError

/-- The call-time `wrapper(*args, **kwargs)` produced by `annotate`'s
decorator.  The wrapped callable is modelled state-passing (`σ` is its
side-effect state); the validator is the external `jsonschema` validator,
kept abstract as a pass/fail predicate.  The returned state witnesses
whether the wrapped callable ran. -/
def wrapper {σ : Type} (validate : JValue → JValue → Bool) (ann : Annot)
    (func : σ → List JValue → List (String × JValue) → JValue × σ)
    (s : σ) (args : List JValue) (kwargs : List (String × JValue)) :
    Except PyError JValue × σ :=
  let argStep : Except PyError Unit :=
    match ann.args_schema with
    | Option.none => .ok ()
    | some as =>
      match collect_properties as ann.arg_names args kwargs with
      | .error e => .error e
      | .ok props =>
        if validate (.obj props) (.obj as) then .ok ()
        else .error .validationError
  match argStep with
  | .error e => (.error e, s)
  | .ok _ =>
    let r := func s args kwargs
    (resultCheck validate ann.result_schema r.1, r.2)

/-- `doctor/_util.py`: a Python callable as seen by
`get_wrapped`/`with_wraps` — an identity for the underlying code object
plus an optional `_wraps` attribute pointing at the callable it wrapped. -/
inductive PCallable where
  | mk (id : Nat) (wraps : Option PCallable)

/-- The optional `_wraps` attribute. -/
def PCallable.wraps : PCallable → Option PCallable
  | .mk _ w => w

/-- Python `hasattr(func, '_wraps')`. -/
def hasWraps (f : PCallable) : Bool :=
  f.wraps.isSome

/-- `get_wrapped(func)`: follow `_wraps` back-references until a callable
without one is reached. -/
def get_wrapped : PCallable → PCallable
  | .mk i Option.none => .mk i Option.none
  | .mk _ (some w) => get_wrapped w

/-- Setting the `_wraps` attribute on a wrapper (`wrapped_func._wraps =
func` in `_decorator_wrapper`). -/
def setWraps : PCallable → PCallable → PCallable
  | .mk i _, f => .mk i (some f)

/-- Applying a decorator processed by `with_wraps` to a callable: run the
wrapped decorator and record the back-reference on its result. -/
def with_wraps_apply (decorator : PCallable → PCallable)
    (func : PCallable) : PCallable :=
  setWraps (decorator func) func

/-- A stack of decorators applied innermost-first, each through
`with_wraps`. -/
def applyChain (ds : List (PCallable → PCallable)) (f : PCallable) :
    PCallable :=
  ds.foldl (fun g d => with_wraps_apply d g) f

/-- The names of the `properties` entries of a schema dict (used to state
claims about derived args schemas). -/
def propNames (d : SchemaDict) : List String :=
  match alookup "properties" d with
  | some (.obj ps) => ps.map Prod.fst
  | _ => []

/-- The names under the `required` key of a schema dict; the empty list
when the key is absent. -/
def requiredOf (d : SchemaDict) : List String :=
  match alookup "required" d with
  | some (.arr xs) =>
    xs.filterMap (fun v => match v with | .str s => some s | _ => none)
  | _ => []

/-- The pure content of the `collect_properties` loop, once the
`'properties'` lookup is known to yield the object `props` (so no step
can raise). -/
def collectPure (props : List (String × JValue)) (ca : List JValue)
    (kw : List (String × JValue)) :
    List String → Nat → List (String × JValue) → List (String × JValue)
  | [], _, acc => acc
  | name :: rest, i, acc =>
    if hasKey props name then
      if i < ca.length then
        collectPure props ca kw rest (i + 1) (dictSet acc name (ca.getD i .null))
      else
        match alookup name kw with
        | some v => collectPure props ca kw rest (i + 1) (dictSet acc name v)
        | Option.none => collectPure props ca kw rest (i + 1) acc
    else collectPure props ca kw rest (i + 1) acc

/-- Args schema dict used to exercise `collect_properties` at concrete
inputs: a single declared property `a`. -/
def c3schema : SchemaDict := [("properties", .obj [("a", .obj [])])]

/-- A concrete annotation for exercising the wrapper: one declared
argument `a`, args validation enabled, result validation disabled. -/
def c4ann : Annot :=
  { is_method := false, arg_names := ["a"], args_name := Option.none,
    kwargs_name := Option.none, default_values := [],
    args_schema := some [("properties", .obj [("a", refSchema "a")])],
    result_schema := Option.none }

/-- A concrete annotation whose args schema is a bare `$ref` dict (what a
string args spec produces) attached to a zero-parameter callable. -/
def c10ann : Annot :=
  { is_method := false, arg_names := [], args_name := Option.none,
    kwargs_name := Option.none, default_values := [],
    args_schema := some [("$ref", .str (defRef "a"))],
    result_schema := Option.none }

/-- Like `c10ann` but for a callable with one declared argument. -/
def c10ann1 : Annot :=
  { c10ann with arg_names := ["a"] }

/-- Reflection of `def f(): ...` — a plain function with no declared
parameters. -/
def c7fi : FuncInfo :=
  { arg_names := [], args_name := Option.none, kwargs_name := Option.none,
    default_values := [], isPlainFunction := true }

section Lemmas

/-- `hasKey` characterised through membership. -/
theorem hasKey_eq_true_iff {d : List (String × JValue)} {k : String} :
    hasKey d k = true ↔ ∃ p ∈ d, p.1 = k := by
  simp [hasKey, List.any_eq_true]

/-- `alookup` on a key absent from the whole list is `none`. -/
theorem alookup_eq_none_of_hasKey_false {d : List (String × JValue)}
    {k : String} (h : hasKey d k = false) :
    alookup k d = none := by
  induction d with
  | nil => rfl
  | cons p d ih =>
    simp only [hasKey, List.any_cons, Bool.or_eq_false_iff,
      decide_eq_false_iff_not] at h
    rw [alookup, if_neg h.1]
    exact ih (by simpa [hasKey] using h.2)

/-- `alookup` after an append. -/
theorem alookup_append (k : String) (d e : List (String × JValue)) :
    alookup k (d ++ e) =
      match alookup k d with
      | some v => some v
      | none => alookup k e := by
  induction d with
  | nil => simp [alookup]
  | cons p d ih =>
    by_cases h : p.1 = k
    · simp [alookup, h]
    · simp [alookup, h, ih]

/-- The update map inside `dictSet` does not change lookups at other
keys. -/
theorem alookup_dictSet_map_ne (d : List (String × JValue))
    (k k' : String) (v : JValue) (hkk : k ≠ k') :
    alookup k' (d.map (fun p => if p.1 = k then (k, v) else p)) =
      alookup k' d := by
  induction d with
  | nil => rfl
  | cons p d ih =>
    by_cases hpk : p.1 = k
    · rw [List.map_cons, if_pos hpk]
      rw [alookup, if_neg hkk, alookup, if_neg (fun h => hkk (hpk ▸ h)), ih]
    · rw [List.map_cons, if_neg hpk]
      by_cases hpk' : p.1 = k'
      · rw [alookup, if_pos hpk', alookup, if_pos hpk']
      · rw [alookup, if_neg hpk', alookup, if_neg hpk', ih]

/-- The update map inside `dictSet` sets the first occurrence of `k`. -/
theorem alookup_dictSet_map_eq (d : List (String × JValue)) (k : String)
    (v : JValue) (hm : hasKey d k = true) :
    alookup k (d.map (fun p => if p.1 = k then (k, v) else p)) = some v := by
  induction d with
  | nil => simp [hasKey] at hm
  | cons p d ih =>
    by_cases hpk : p.1 = k
    · rw [List.map_cons, if_pos hpk, alookup, if_pos rfl]
    · rw [List.map_cons, if_neg hpk, alookup, if_neg hpk]
      apply ih
      simp only [hasKey, List.any_cons, Bool.or_eq_true,
        decide_eq_true_eq] at hm
      rcases hm with hm | hm
      · exact absurd hm hpk
      · exact hm

/-- Master lemma for `dictSet`: the resulting dict maps `k` to `v` and
agrees with the original elsewhere. -/
theorem alookup_dictSet (d : List (String × JValue)) (k k' : String)
    (v : JValue) :
    alookup k' (dictSet d k v) =
      if k = k' then some v else alookup k' d := by
  unfold dictSet
  by_cases hm : hasKey d k = true
  · rw [if_pos hm]
    by_cases hkk : k = k'
    · subst hkk
      rw [if_pos rfl, alookup_dictSet_map_eq d k v hm]
    · rw [if_neg hkk, alookup_dictSet_map_ne d k k' v hkk]
  · rw [if_neg hm]
    rw [Bool.not_eq_true] at hm
    rw [alookup_append]
    by_cases hkk : k = k'
    · subst hkk
      rw [alookup_eq_none_of_hasKey_false hm]
      simp [alookup]
    · rw [if_neg hkk]
      cases h : alookup k' d with
      | some w => rfl
      | none => simp [alookup, hkk]

/-- `hasKey` distributes over append. -/
theorem hasKey_append (d e : List (String × JValue)) (k : String) :
    hasKey (d ++ e) k = (hasKey d k || hasKey e k) := by
  simp [hasKey, List.any_append]

/-- `dictSet` on an absent key appends. -/
theorem dictSet_of_hasKey_false {d : List (String × JValue)} {k : String}
    (v : JValue) (h : hasKey d k = false) :
    dictSet d k v = d ++ [(k, v)] := by
  unfold dictSet
  rw [if_neg (by simp [h])]

/-- `Schema.resolveDef` fails only with `RefResolutionError`. -/
theorem resolveDef_error {s : Schema} {n : String} {e : PyError}
    (h : s.resolveDef n = .error e) : e = .refResolutionError := by
  unfold Schema.resolveDef at h
  split at h
  · cases h; rfl
  · split at h
    · cases h; rfl
    · cases h

/-- A non-`ok` `resolveDef` is exactly a `RefResolutionError`. -/
theorem resolveDef_of_exOk_false {s : Schema} {n : String}
    (h : exOk (s.resolveDef n) = false) :
    s.resolveDef n = .error .refResolutionError := by
  cases hr : s.resolveDef n with
  | ok v => rw [hr] at h; simp [exOk] at h
  | error e => rw [resolveDef_error hr]

/-- When every name resolves and the names are distinct and fresh for the
accumulator, `buildProps` appends one `$ref` entry per name, in order. -/
theorem buildProps_ok (schema : Schema) (ns : List String) :
    ∀ acc : List (String × JValue),
    (∀ n ∈ ns, exOk (schema.resolveDef n) = true) →
    ns.Nodup →
    (∀ n ∈ ns, hasKey acc n = false) →
    buildProps schema acc ns = .ok (acc ++ ns.map fun n => (n, refSchema n)) := by
  induction ns with
  | nil => intro acc _ _ _; simp [buildProps]
  | cons n ns ih =>
    intro acc hres hnd hdisj
    cases hr : schema.resolveDef n with
    | error e =>
      have := hres n (List.mem_cons_self n ns)
      rw [hr] at this
      simp [exOk] at this
    | ok v =>
      rw [buildProps, hr]
      rw [dictSet_of_hasKey_false _ (hdisj n (List.mem_cons_self n ns))]
      rw [List.nodup_cons] at hnd
      rw [ih (acc ++ [(n, refSchema n)])
        (fun m hm => hres m (List.mem_cons_of_mem n hm)) hnd.2
        (fun m hm => by
          rw [hasKey_append]
          have h1 := hdisj m (List.mem_cons_of_mem n hm)
          have h2 : hasKey [(n, refSchema n)] m = false := by
            simp only [hasKey, List.any_cons, List.any_nil,
              Bool.or_false, decide_eq_false_iff_not]
            exact fun he => hnd.1 (he ▸ hm)
          rw [h1, h2]
          rfl)]
      simp

/-- If any listed name fails to resolve, `buildProps` fails with
`RefResolutionError`. -/
theorem buildProps_error (schema : Schema) (ns : List String) :
    ∀ acc : List (String × JValue),
    (∃ n ∈ ns, exOk (schema.resolveDef n) = false) →
    buildProps schema acc ns = .error .refResolutionError := by
  induction ns with
  | nil => intro acc h; simp at h
  | cons m ns ih =>
    intro acc h
    cases hr : schema.resolveDef m with
    | error e =>
      rw [buildProps, hr, resolveDef_error hr]
    | ok v =>
      rw [buildProps, hr]
      apply ih
      obtain ⟨n, hn, hfail⟩ := h
      rcases List.mem_cons.mp hn with he | he
      · subst he; rw [hr] at hfail; simp [exOk] at hfail
      · exact ⟨n, he, hfail⟩

/-- Once the `'properties'` key is known to hold the object `props`, the
`collect_properties` loop cannot raise and computes `collectPure`. -/
theorem collectLoop_eq_pure (args_schema : SchemaDict)
    (props : List (String × JValue)) (ca : List JValue)
    (kw : List (String × JValue))
    (hp : alookup "properties" args_schema = some (.obj props)) :
    ∀ (names : List String) (i : Nat) (acc : List (String × JValue)),
    collectLoop args_schema ca kw names i acc =
      .ok (collectPure props ca kw names i acc) := by
  intro names
  induction names with
  | nil => intro i acc; rfl
  | cons name rest ih =>
    intro i acc
    by_cases hmem : hasKey props name = true
    · by_cases hlen : i < ca.length
      · simp [collectLoop, hp, jContains, collectPure, hmem, hlen, ih]
      · cases halk : alookup name kw with
        | some v =>
          simp [collectLoop, hp, jContains, collectPure, hmem, hlen, halk, ih]
        | none =>
          simp [collectLoop, hp, jContains, collectPure, hmem, hlen, halk, ih]
    · have hmem' : hasKey props name = false := by simpa using hmem
      simp [collectLoop, hp, jContains, collectPure, hmem', ih]

/-- A name not among the iterated names is untouched by the loop. -/
theorem collectPure_not_mem (props : List (String × JValue))
    (ca : List JValue) (kw : List (String × JValue)) (nm : String) :
    ∀ (names : List String) (i : Nat) (acc : List (String × JValue)),
    nm ∉ names →
    alookup nm (collectPure props ca kw names i acc) = alookup nm acc := by
  intro names
  induction names with
  | nil => intro i acc h; rfl
  | cons name rest ih =>
    intro i acc h
    have hne : name ≠ nm := fun he => h (he ▸ List.mem_cons_self name rest)
    have hnm : nm ∉ rest := fun hr => h (List.mem_cons_of_mem name hr)
    simp only [collectPure]
    by_cases hmem : hasKey props name = true
    · rw [if_pos hmem]
      by_cases hlen : i < ca.length
      · rw [if_pos hlen, ih _ _ hnm, alookup_dictSet, if_neg hne]
      · rw [if_neg hlen]
        cases halk : alookup name kw with
        | some v => rw [ih _ _ hnm, alookup_dictSet, if_neg hne]
        | none => rw [ih _ _ hnm]
    · rw [if_neg hmem, ih _ _ hnm]

/-- A name without an entry under `properties` is untouched by the loop. -/
theorem collectPure_not_prop (props : List (String × JValue))
    (ca : List JValue) (kw : List (String × JValue)) (nm : String)
    (hpm : hasKey props nm = false) :
    ∀ (names : List String) (i : Nat) (acc : List (String × JValue)),
    alookup nm (collectPure props ca kw names i acc) = alookup nm acc := by
  intro names
  induction names with
  | nil => intro i acc; rfl
  | cons name rest ih =>
    intro i acc
    simp only [collectPure]
    by_cases hne : name = nm
    · subst hne
      rw [if_neg (by simp [hpm]), ih]
    · by_cases hmem : hasKey props name = true
      · rw [if_pos hmem]
        by_cases hlen : i < ca.length
        · rw [if_pos hlen, ih, alookup_dictSet, if_neg hne]
        · rw [if_neg hlen]
          cases halk : alookup name kw with
          | some v => rw [ih, alookup_dictSet, if_neg hne]
          | none => rw [ih]
      · rw [if_neg hmem, ih]

/-- A name supplied neither positionally (every occurrence's index is out
of range) nor by keyword is never added by the loop. -/
theorem collectPure_omitted (props : List (String × JValue))
    (ca : List JValue) (kw : List (String × JValue)) (nm : String) :
    ∀ (names : List String) (i : Nat) (acc : List (String × JValue)),
    (∀ j, names.get? j = some nm → ca.length ≤ i + j) →
    alookup nm kw = none →
    alookup nm (collectPure props ca kw names i acc) = alookup nm acc := by
  intro names
  induction names with
  | nil => intro i acc _ _; rfl
  | cons name rest ih =>
    intro i acc hpos hkw
    have hrest : ∀ j, rest.get? j = some nm → ca.length ≤ (i + 1) + j := by
      intro j hj
      have := hpos (j + 1) (by simpa using hj)
      omega
    simp only [collectPure]
    by_cases hne : name = nm
    · subst hne
      have hout : ¬(i < ca.length) := by
        have := hpos 0 (by simp)
        omega
      by_cases hmem : hasKey props name = true
      · rw [if_pos hmem, if_neg hout, hkw, ih _ _ hrest hkw]
      · rw [if_neg hmem, ih _ _ hrest hkw]
    · by_cases hmem : hasKey props name = true
      · rw [if_pos hmem]
        by_cases hlen : i < ca.length
        · rw [if_pos hlen, ih _ _ hrest hkw, alookup_dictSet, if_neg hne]
        · rw [if_neg hlen]
          cases halk : alookup name kw with
          | some v => rw [ih _ _ hrest hkw, alookup_dictSet, if_neg hne]
          | none => rw [ih _ _ hrest hkw]
      · rw [if_neg hmem, ih _ _ hrest hkw]

/-- A name supplied positionally in range (its unique index within the
declared names falls inside the positional tuple) gets the positional
value, whatever the keyword arguments hold. -/
theorem collectPure_positional (props : List (String × JValue))
    (ca : List JValue) (kw : List (String × JValue)) (nm : String) :
    ∀ (names : List String) (j i : Nat) (acc : List (String × JValue)),
    names.Nodup → names.get? j = some nm →
    hasKey props nm = true → i + j < ca.length →
    alookup nm (collectPure props ca kw names i acc) =
      some (ca.getD (i + j) .null) := by
  intro names
  induction names with
  | nil => intro j i acc _ hj _ _; simp at hj
  | cons name rest ih =>
    intro j i acc hnd hj hpm hlt
    rw [List.nodup_cons] at hnd
    cases j with
    | zero =>
      have hname : name = nm := by simpa using hj
      subst hname
      have hlen : i < ca.length := by simpa using hlt
      simp only [collectPure]
      rw [if_pos hpm, if_pos hlen,
        collectPure_not_mem props ca kw name rest (i + 1) _ hnd.1,
        alookup_dictSet, if_pos rfl]
      simp
    | succ j =>
      have hj' : rest.get? j = some nm := by simpa using hj
      have hnm : nm ∈ rest := List.get?_mem hj'
      have hne : name ≠ nm := fun he => hnd.1 (he ▸ hnm)
      have hlt' : (i + 1) + j < ca.length := by omega
      have hstep : ∀ acc', alookup nm
          (collectPure props ca kw rest (i + 1) acc') =
          some (ca.getD (i + (j + 1)) .null) := by
        intro acc'
        have := ih j (i + 1) acc' hnd.2 hj' hpm hlt'
        rwa [show (i + 1) + j = i + (j + 1) by omega] at this
      simp only [collectPure]
      by_cases hmem : hasKey props name = true
      · rw [if_pos hmem]
        by_cases hlen : i < ca.length
        · rw [if_pos hlen, hstep]
        · rw [if_neg hlen]
          cases halk : alookup name kw with
          | some v => rw [hstep]
          | none => rw [hstep]
      · rw [if_neg hmem, hstep]

/-- `alookup` skips a entry with a different key. -/
theorem alookup_cons_ne {k k' : String} (v : JValue)
    (d : List (String × JValue)) (h : k' ≠ k) :
    alookup k ((k', v) :: d) = alookup k d := by
  rw [alookup, if_neg h]

/-- `alookup` finds a matching head entry. -/
theorem alookup_cons_eq {k : String} (v : JValue)
    (d : List (String × JValue)) :
    alookup k ((k, v) :: d) = some v := by
  rw [alookup, if_pos rfl]

/-- The fully computed `list`-spec result of `make_schema_dict`. -/
theorem make_schema_dict_list_ok (schema : Schema) (usage : String)
    (names : List String) (req : Option (List String))
    (hres : ∀ n ∈ names, exOk (schema.resolveDef n) = true)
    (hnd : names.Nodup) :
    make_schema_dict schema usage (.list names) req = .ok (.dict (
      [("type", .str "object"), ("additionalProperties", .bool true),
       ("properties", .obj (names.map fun n => (n, refSchema n)))] ++
      (if optTruthy req then
        [("required", .arr ((req.getD []).map .str))]
       else []))) := by
  have hb := buildProps_ok schema names [] hres hnd (fun n _ => rfl)
  simp only [make_schema_dict, hb, List.nil_append]
  by_cases hrq : optTruthy req = true
  · rw [if_pos hrq, if_pos hrq]
  · rw [if_neg hrq, if_neg hrq, List.append_nil]

/-- A `list` spec containing an unresolvable name fails. -/
theorem make_schema_dict_list_error (schema : Schema) (usage : String)
    (names : List String) (req : Option (List String))
    (h : ∃ n ∈ names, exOk (schema.resolveDef n) = false) :
    make_schema_dict schema usage (.list names) req =
      .error .refResolutionError := by
  have hb := buildProps_error schema names [] h
  simp [make_schema_dict, hb]

/-- The `properties` names of the object schema built for a list spec. -/
theorem propNames_base (ps : List (String × JValue))
    (tail : List (String × JValue)) :
    propNames ([("type", JValue.str "object"),
      ("additionalProperties", JValue.bool true),
      ("properties", JValue.obj ps)] ++ tail) = ps.map Prod.fst := by
  show propNames (("type", JValue.str "object") ::
    ("additionalProperties", JValue.bool true) ::
    ("properties", JValue.obj ps) :: tail) = ps.map Prod.fst
  unfold propNames
  rw [alookup_cons_ne _ _ (by decide), alookup_cons_ne _ _ (by decide),
    alookup_cons_eq]

/-- Extracting the strings back out of a `JValue.str`-mapped list. -/
theorem filterMap_str_aux (l : List String) :
    (l.map JValue.str).filterMap
      (fun v => match v with | .str s => some s | _ => none) = l := by
  induction l with
  | nil => rfl
  | cons a l ih => simp [List.filterMap_cons, ih]

/-- The `required` names when a `required` entry is present. -/
theorem requiredOf_base_req (ps : List (String × JValue))
    (rq : List String) :
    requiredOf ([("type", JValue.str "object"),
      ("additionalProperties", JValue.bool true),
      ("properties", JValue.obj ps)] ++
      [("required", JValue.arr (rq.map .str))]) = rq := by
  show requiredOf (("type", JValue.str "object") ::
    ("additionalProperties", JValue.bool true) ::
    ("properties", JValue.obj ps) ::
    [("required", JValue.arr (rq.map .str))]) = rq
  unfold requiredOf
  rw [alookup_cons_ne _ _ (by decide), alookup_cons_ne _ _ (by decide),
    alookup_cons_ne _ _ (by decide), alookup_cons_eq]
  exact filterMap_str_aux rq

/-- The `required` names when no `required` entry is present. -/
theorem requiredOf_base_noreq (ps : List (String × JValue)) :
    requiredOf [("type", JValue.str "object"),
      ("additionalProperties", JValue.bool true),
      ("properties", JValue.obj ps)] = [] := by
  unfold requiredOf
  rw [alookup_cons_ne _ _ (by decide), alookup_cons_ne _ _ (by decide),
    alookup_cons_ne _ _ (by decide)]
  rfl

/-- Wrapping through `with_wraps` leaves the resolved root unchanged:
the produced wrapper's `_wraps` points back at the decorated callable. -/
theorem get_wrapped_with_wraps (d : PCallable → PCallable)
    (f : PCallable) :
    get_wrapped (with_wraps_apply d f) = get_wrapped f := by
  unfold with_wraps_apply setWraps
  cases d f with
  | mk i w => rfl

/-- Applying any stack of `with_wraps`-processed decorators leaves the
resolved root unchanged. -/
theorem get_wrapped_applyChain (ds : List (PCallable → PCallable)) :
    ∀ f : PCallable, get_wrapped (applyChain ds f) = get_wrapped f := by
  induction ds with
  | nil => intro f; rfl
  | cons d ds ih =>
    intro f
    show get_wrapped (applyChain ds (with_wraps_apply d f)) = _
    rw [ih, get_wrapped_with_wraps]

/-- `get_wrapped` always lands on a callable without a `_wraps`
attribute. -/
theorem hasWraps_get_wrapped : ∀ c : PCallable,
    hasWraps (get_wrapped c) = false
  | .mk i Option.none => rfl
  | .mk i (some w) => hasWraps_get_wrapped w

end Lemmas

/-- C5: for a list spec, `make_schema_dict` builds an object schema with
`type: object`, `additionalProperties: true`, one `$ref` property per
listed name (each resolved eagerly, failing with `RefResolutionError` on
any missing definition), and a `required` key equal to exactly the given
`required_names` list (order preserved, not deduplicated) if and only if
that list is truthy (given and non-empty). -/
theorem C5_make_schema_list (schema : Schema) (usage : String)
    (names : List String) (req : Option (List String))
    (hnd : names.Nodup) :
    ((∀ n ∈ names, exOk (schema.resolveDef n) = true) →
      make_schema_dict schema usage (.list names) req = .ok (.dict (
        [("type", .str "object"), ("additionalProperties", .bool true),
         ("properties", .obj (names.map fun n => (n, refSchema n)))] ++
        (if optTruthy req then
          [("required", .arr ((req.getD []).map .str))]
         else []))))
    ∧ ((∃ n ∈ names, exOk (schema.resolveDef n) = false) →
      make_schema_dict schema usage (.list names) req =
        .error .refResolutionError) :=
  ⟨fun hres => make_schema_dict_list_ok schema usage names req hres hnd,
   fun h => make_schema_dict_list_error schema usage names req h⟩

/-- Witness for C5 at a concrete schema and name list. -/
theorem C5_witness :
    make_schema_dict sampleSchema "args" (.list ["a", "b"]) (some ["a"]) =
      .ok (.dict
        [("type", .str "object"), ("additionalProperties", .bool true),
         ("properties", .obj [("a", refSchema "a"), ("b", refSchema "b")]),
         ("required", .arr [.str "a"])]) := by
  have h := (C5_make_schema_list sampleSchema "args" ["a", "b"]
    (some ["a"]) (by simp)).1 (by
      intro n hn
      simp only [List.mem_cons, List.not_mem_nil, or_false] at hn
      rcases hn with rfl | rfl <;> rfl)
  simpa using h

/-- C6: for a string spec, `make_schema_dict` fails with
`RefResolutionError` when `#/definitions/<name>` does not resolve in the
source schema, and returns exactly `{"$ref": "#/definitions/<name>"}`
when it does. -/
theorem C6_make_schema_string (schema : Schema) (usage : String)
    (name : String) (req : Option (List String)) :
    (exOk (schema.resolveDef name) = false →
      make_schema_dict schema usage (.str name) req =
        .error .refResolutionError)
    ∧ (exOk (schema.resolveDef name) = true →
      make_schema_dict schema usage (.str name) req =
        .ok (.dict [("$ref", .str (defRef name))])) := by
  constructor
  · intro h
    simp [make_schema_dict, resolveDef_of_exOk_false h]
  · intro h
    cases hr : schema.resolveDef name with
    | error e => rw [hr] at h; simp [exOk] at h
    | ok v => simp [make_schema_dict, hr]

/-- Witness for C6: an unresolvable and a resolvable definition name. -/
theorem C6_witness :
    make_schema_dict sampleSchema "result" (.str "nope") Option.none =
      .error .refResolutionError
    ∧ make_schema_dict sampleSchema "result" (.str "a") Option.none =
      .ok (.dict [("$ref", .str (defRef "a"))]) :=
  ⟨(C6_make_schema_string sampleSchema "result" "nope" Option.none).1 rfl,
   (C6_make_schema_string sampleSchema "result" "a" Option.none).2 rfl⟩

/-- C8: `annotate` builds both schemas eagerly when the decorator factory
is applied: an explicit args spec naming an unresolvable definition makes
`annotate` itself fail with `RefResolutionError`, before any decorator
(and hence any wrapper) is produced — no invocation is involved. -/
theorem C8_eager_schema_build (schema : Schema) (name : String)
    (req : Option (List String)) (resultSpec : Spec) (is_method : Bool)
    (h : exOk (schema.resolveDef name) = false) :
    annotate schema (.str name) req resultSpec is_method =
      .error .refResolutionError
    ∧ ∀ pre post : List String,
      annotate schema (.list (pre ++ name :: post)) req resultSpec
        is_method = .error .refResolutionError := by
  have hr := resolveDef_of_exOk_false h
  constructor
  · simp [annotate, make_schema_dict, hr]
  · intro pre post
    have hb := buildProps_error schema (pre ++ name :: post) []
      ⟨name, by simp, h⟩
    simp [annotate, make_schema_dict, hb]

/-- Witness for C8: decoration-time failure on a missing definition. -/
theorem C8_witness :
    annotate sampleSchema (.str "missing") Option.none .none false =
      .error .refResolutionError
    ∧ annotate sampleSchema (.list ["a", "missing"]) Option.none .none
      false = .error .refResolutionError := by
  have h := C8_eager_schema_build sampleSchema "missing" Option.none
    .none false rfl
  exact ⟨h.1, h.2 ["a"] []⟩

/-- C9: resolving from the outermost wrapper of any chain of
`with_wraps`-style wrappers follows the `_wraps` back-references down to
the innermost original callable; a callable without a back-reference
resolves to itself, and the resolved callable never has a
back-reference. -/
theorem C9_get_wrapped_chain (ds : List (PCallable → PCallable))
    (f : PCallable) (hf : f.wraps = Option.none) :
    get_wrapped (applyChain ds f) = f
    ∧ get_wrapped f = f
    ∧ ∀ c : PCallable, hasWraps (get_wrapped c) = false := by
  have hroot : get_wrapped f = f := by
    cases f with
    | mk i w =>
      cases w with
      | none => rfl
      | some w' => simp [PCallable.wraps] at hf
  exact ⟨by rw [get_wrapped_applyChain, hroot], hroot,
    hasWraps_get_wrapped⟩

/-- C1: with no explicit args spec, the auto-derived args schema over
`n` declared names with `k` trailing defaulted names declares exactly the
names as properties and marks exactly the first `n - k` as required; for
a method the leading (self) name is removed from the name list before
this computation, so it appears neither in the properties nor in the
required list. -/
theorem C1_create_args_schema (schema : Schema) (arg_names : List String)
    (default_values : List JValue) (is_method : Bool)
    (hnd : arg_names.Nodup)
    (hres : ∀ n ∈ (if is_method then arg_names.drop 1 else arg_names),
      exOk (schema.resolveDef n) = true) :
    ((if is_method then arg_names.drop 1 else arg_names) = [] →
      create_args_schema schema arg_names default_values is_method =
        .ok Option.none)
    ∧ ((if is_method then arg_names.drop 1 else arg_names) ≠ [] →
      ∃ d, create_args_schema schema arg_names default_values is_method =
          .ok (some d)
        ∧ propNames d = (if is_method then arg_names.drop 1 else arg_names)
        ∧ requiredOf d =
            (if is_method then arg_names.drop 1 else arg_names).take
              ((if is_method then arg_names.drop 1 else arg_names).length -
                default_values.length)
        ∧ (is_method = true → ∀ self ∈ arg_names.take 1,
            self ∉ propNames d ∧ self ∉ requiredOf d)) := by
  have hndn : (if is_method then arg_names.drop 1 else arg_names).Nodup := by
    cases is_method with
    | true => exact List.Nodup.sublist (List.drop_sublist 1 arg_names) hnd
    | false => exact hnd
  constructor
  · intro he
    unfold create_args_schema
    rw [if_pos (List.isEmpty_iff.mpr he)]
  · intro hne
    set names := if is_method then arg_names.drop 1 else arg_names
      with hnames
    set rq := names.take (names.length - default_values.length) with hrq
    have hreq : (if default_values.isEmpty then names
        else names.take (names.length - default_values.length)) = rq := by
      by_cases hdv : default_values.isEmpty = true
      · rw [if_pos hdv, hrq, List.isEmpty_iff.mp hdv]
        simp
      · rw [if_neg hdv]
    have hmsd := make_schema_dict_list_ok schema "args" names (some rq)
      hres hndn
    set d := ([("type", JValue.str "object"),
        ("additionalProperties", JValue.bool true),
        ("properties", JValue.obj (names.map fun n => (n, refSchema n)))] ++
      (if optTruthy (some rq) then
        [("required", JValue.arr (((some rq).getD []).map .str))]
       else [])) with hd
    have hval : create_args_schema schema arg_names default_values
        is_method = .ok (some d) := by
      unfold create_args_schema
      rw [← hnames, if_neg (fun hemp => hne (List.isEmpty_iff.mp hemp)),
        hreq]
      simp only [hmsd]
      rfl
    have hid : (Prod.fst ∘ fun n : String => (n, refSchema n)) = id := rfl
    have hprop : propNames d = names := by
      rw [hd]
      by_cases hopt : optTruthy (some rq) = true
      · rw [if_pos hopt, propNames_base, List.map_map, hid, List.map_id]
      · rw [if_neg hopt, propNames_base, List.map_map, hid, List.map_id]
    have hrqd : requiredOf d = rq := by
      rw [hd]
      by_cases hopt : optTruthy (some rq) = true
      · rw [if_pos hopt]
        exact requiredOf_base_req _ rq
      · have hrqe : rq = [] := by
          simp only [optTruthy, Bool.not_eq_true, Bool.not_eq_true',
            Bool.not_eq_false] at hopt
          exact List.isEmpty_iff.mp (by simpa using hopt)
        rw [if_neg hopt, List.append_nil, requiredOf_base_noreq, hrqe]
    refine ⟨d, hval, hprop, hrqd, ?_⟩
    intro him self hself
    cases arg_names with
    | nil => simp at hself
    | cons a t =>
      have hsa : self = a := by simpa using hself
      have hna : names = t := by rw [hnames, him]; rfl
      rw [List.nodup_cons] at hnd
      subst hsa
      constructor
      · rw [hprop, hna]
        exact hnd.1
      · rw [hrqd, hrq, hna]
        intro hin
        exact hnd.1 (List.take_subset _ _ hin)

/-- Witness for C1: a method `def f(self, a, b, c=0)` over the sample
schema derives properties `a, b, c` with `a, b` required and no trace of
`self`. -/
theorem C1_witness :
    ∃ d, create_args_schema sampleSchema ["self", "a", "b", "c"]
        [JValue.num 0] true = .ok (some d)
      ∧ propNames d = ["a", "b", "c"]
      ∧ requiredOf d = ["a", "b"]
      ∧ "self" ∉ propNames d ∧ "self" ∉ requiredOf d := by
  obtain ⟨d, h1, h2, h3, h4⟩ := (C1_create_args_schema sampleSchema
    ["self", "a", "b", "c"] [JValue.num 0] true (by simp) (by
      intro n hn
      simp at hn
      rcases hn with rfl | rfl | rfl <;> rfl)).2 (by simp)
  refine ⟨d, h1, by simpa using h2, by simpa using h3, ?_, ?_⟩
  · exact (h4 rfl "self" (by simp)).1
  · exact (h4 rfl "self" (by simp)).2

/-- C2: given an args schema whose `properties` entry is an object,
`collect_properties` never raises; its result mentions only declared
argument names that appear among the declared properties, and a name
supplied neither positionally (no occurrence's index falls inside the
positional tuple) nor by keyword is simply absent from the result — in
particular an omitted defaulted argument is never part of the validated
payload. -/
theorem C2_collect_properties (args_schema : SchemaDict)
    (props : List (String × JValue)) (arg_names : List String)
    (call_args : List JValue) (call_kwargs : List (String × JValue))
    (hp : alookup "properties" args_schema = some (.obj props)) :
    ∃ m, collect_properties args_schema arg_names call_args call_kwargs =
        .ok m
      ∧ (∀ nm, alookup nm m ≠ Option.none →
          nm ∈ arg_names ∧ hasKey props nm = true)
      ∧ (∀ nm, (∀ j, arg_names.get? j = some nm → call_args.length ≤ j) →
          alookup nm call_kwargs = Option.none →
          alookup nm m = Option.none) := by
  refine ⟨collectPure props call_args call_kwargs arg_names 0 [],
    collectLoop_eq_pure args_schema props call_args call_kwargs hp
      arg_names 0 [], ?_, ?_⟩
  · intro nm h
    by_cases hm : nm ∈ arg_names
    · by_cases hkp : hasKey props nm = true
      · exact ⟨hm, hkp⟩
      · exact absurd (collectPure_not_prop props call_args call_kwargs nm
          (by simpa using hkp) arg_names 0 []) h
    · exact absurd (collectPure_not_mem props call_args call_kwargs nm
        arg_names 0 [] hm) h
  · intro nm hj hkw
    exact collectPure_omitted props call_args call_kwargs nm arg_names 0 []
      (fun j hjj => by simpa using hj j hjj) hkw

/-- Witness for C2: `def f(a, b)` called with only `a` positional: `b` is
omitted from the payload and nothing is raised. -/
theorem C2_witness :
    ∃ m, collect_properties
        [("properties", JValue.obj [("a", refSchema "a"),
          ("b", refSchema "b")])] ["a", "b"] [JValue.str "x"] [] = .ok m
      ∧ (∀ nm, alookup nm m ≠ Option.none →
          nm ∈ ["a", "b"] ∧ hasKey [("a", refSchema "a"),
            ("b", refSchema "b")] nm = true)
      ∧ (∀ nm, (∀ j, (["a", "b"] : List String).get? j = some nm →
          ([JValue.str "x"] : List JValue).length ≤ j) →
          alookup nm [] = Option.none → alookup nm m = Option.none) :=
  C2_collect_properties
    [("properties", JValue.obj [("a", refSchema "a"), ("b", refSchema "b")])]
    [("a", refSchema "a"), ("b", refSchema "b")] ["a", "b"]
    [JValue.str "x"] [] rfl

/-- C3 counterexample: argument `a` supplied both positionally and by
keyword — `collect_properties` keeps the positional value, so the
keyword value does not take precedence as claimed. -/
theorem C3_counterexample :
    collect_properties c3schema ["a"] [.str "positional"]
      [("a", .str "keyword")] = .ok [("a", .str "positional")]
    ∧ collect_properties c3schema ["a"] [.str "positional"]
      [("a", .str "keyword")] ≠ .ok [("a", .str "keyword")] := by
  refine ⟨rfl, fun h => ?_⟩
  have h0 : (Except.ok [("a", JValue.str "positional")] :
      Except PyError (List (String × JValue))) =
      .ok [("a", JValue.str "keyword")] := h
  simp at h0

/-- C3 amended: when a declared argument name is supplied both
positionally (its unique index is within the positional tuple) and by
keyword, the positional value takes precedence in the extracted property
mapping (the loop's `elif` never consults the keyword mapping). -/
theorem C3_positional_precedence (args_schema : SchemaDict)
    (props : List (String × JValue)) (arg_names : List String)
    (call_args : List JValue) (call_kwargs : List (String × JValue))
    (nm : String) (j : Nat)
    (hp : alookup "properties" args_schema = some (.obj props))
    (hnd : arg_names.Nodup)
    (hj : arg_names.get? j = some nm)
    (hpos : j < call_args.length)
    (hmem : hasKey props nm = true) :
    ∃ m, collect_properties args_schema arg_names call_args call_kwargs =
        .ok m
      ∧ alookup nm m = some (call_args.getD j .null) := by
  refine ⟨_, collectLoop_eq_pure args_schema props call_args call_kwargs hp
    arg_names 0 [], ?_⟩
  have h := collectPure_positional props call_args call_kwargs nm arg_names
    j 0 [] hnd hj hmem (by omega)
  simpa using h

/-- Witness for C3 (amended): positional `P` wins over keyword `K`. -/
theorem C3_witness :
    ∃ m, collect_properties c3schema ["a"] [JValue.str "P"]
        [("a", JValue.str "K")] = .ok m
      ∧ alookup "a" m = some (JValue.str "P") :=
  C3_positional_precedence c3schema [("a", .obj [])] ["a"]
    [JValue.str "P"] [("a", JValue.str "K")] "a" 0 rfl (by simp) rfl
    (by simp) rfl

/-- C4: when the extracted argument subset validates (and the result
validates whenever a result schema is set), the wrapper returns the
wrapped callable's result unchanged, with the callable's side effect
applied; when the extracted subset fails validation, the wrapper raises
`ValidationError` and returns the state unchanged, for every wrapped
callable — the callable is never invoked. -/
theorem C4_wrapper_roundtrip (σ : Type) (validate : JValue → JValue → Bool)
    (ann : Annot) (as : SchemaDict) (props : List (String × JValue))
    (func : σ → List JValue → List (String × JValue) → JValue × σ) (s : σ)
    (args : List JValue) (kwargs : List (String × JValue))
    (has : ann.args_schema = some as)
    (hcol : collect_properties as ann.arg_names args kwargs = .ok props) :
    (validate (.obj props) (.obj as) = true →
      (∀ rs, ann.result_schema = some rs →
        validate (func s args kwargs).1 (.obj rs) = true) →
      wrapper validate ann func s args kwargs =
        (.ok (func s args kwargs).1, (func s args kwargs).2))
    ∧ (validate (.obj props) (.obj as) = false →
      ∀ (τ : Type)
        (g : τ → List JValue → List (String × JValue) → JValue × τ)
        (t : τ),
        wrapper validate ann g t args kwargs =
          (.error .validationError, t)) := by
  constructor
  · intro hv hres
    unfold wrapper
    rw [has]
    simp only [hcol, hv, if_true]
    cases hrs : ann.result_schema with
    | none => simp [resultCheck, hrs]
    | some rs => simp [resultCheck, hrs, hres rs hrs]
  · intro hv τ g t
    unfold wrapper
    rw [has]
    simp [hcol, hv]

/-- Witness for C4: a valid call returns the wrapped result and the side
effect (state bump) happened. -/
theorem C4_witness :
    wrapper (fun _ _ => true) c4ann
      (fun (n : Nat) _ _ => (JValue.num 3, n + 1)) 0 [JValue.str "x"] [] =
      (.ok (JValue.num 3), 1) := by
  have h := (C4_wrapper_roundtrip Nat (fun _ _ => true) c4ann
    [("properties", JValue.obj [("a", refSchema "a")])]
    [("a", JValue.str "x")] (fun n _ _ => (JValue.num 3, n + 1)) 0
    [JValue.str "x"] [] rfl rfl).1 rfl
    (by intro rs hrs; simp [c4ann] at hrs)
  exact h

/-- C7: annotating a callable with no declared parameters (or a method
whose only declared parameter is the leading self-name) without an
explicit args spec yields an annotation with args-schema `none`, and the
wrapper then performs no argument validation: it always invokes the
wrapped callable and only result validation can intervene. -/
theorem C7_no_params_no_validation (schema : Schema)
    (req : Option (List String)) (resultSpec : Spec) (is_method : Bool)
    (fi : FuncInfo) (rOut : MsdOut)
    (hr : make_schema_dict schema "result" resultSpec Option.none = .ok rOut)
    (h : (if (if fi.isPlainFunction then is_method else true) then
      fi.arg_names.drop 1 else fi.arg_names) = []) :
    ∃ dec, annotate schema .unset req resultSpec is_method = .ok dec
      ∧ ∃ ann, dec fi = .ok ann ∧ ann.args_schema = Option.none
        ∧ ∀ (σ : Type) (validate : JValue → JValue → Bool)
            (func : σ → List JValue → List (String × JValue) → JValue × σ)
            (s : σ) (args : List JValue)
            (kwargs : List (String × JValue)),
            wrapper validate ann func s args kwargs =
              (resultCheck validate ann.result_schema
                (func s args kwargs).1, (func s args kwargs).2) := by
  have hann : annotate schema .unset req resultSpec is_method =
      .ok (fun fj => Annot.create schema fj .unset (msdToOpt rOut)
        is_method) := by
    unfold annotate
    rw [show make_schema_dict schema "args" Spec.unset req =
      .ok MsdOut.unset from rfl]
    simp only [hr]
  have hcas : create_args_schema schema fi.arg_names fi.default_values
      (if fi.isPlainFunction then is_method else true) =
      .ok Option.none := by
    unfold create_args_schema
    rw [if_pos (List.isEmpty_iff.mpr h)]
  have hcreate : Annot.create schema fi .unset (msdToOpt rOut) is_method =
      .ok { is_method := (if fi.isPlainFunction then is_method else true),
            arg_names := fi.arg_names, args_name := fi.args_name,
            kwargs_name := fi.kwargs_name,
            default_values := fi.default_values,
            args_schema := Option.none,
            result_schema := msdToOpt rOut } := by
    unfold Annot.create
    simp only [hcas]
  refine ⟨_, hann, ?_⟩
  refine ⟨_, hcreate, rfl, ?_⟩
  intro σ validate func s args kwargs
  rfl

/-- Witness for C7: `def f(): ...` annotated without an args spec. -/
theorem C7_witness :
    ∃ dec, annotate sampleSchema .unset Option.none .none false = .ok dec
      ∧ ∃ ann, dec c7fi = .ok ann
        ∧ ann.args_schema = Option.none
        ∧ ∀ (σ : Type) (validate : JValue → JValue → Bool)
            (func : σ → List JValue → List (String × JValue) → JValue × σ)
            (s : σ) (args : List JValue)
            (kwargs : List (String × JValue)),
            wrapper validate ann func s args kwargs =
              (resultCheck validate ann.result_schema
                (func s args kwargs).1, (func s args kwargs).2) :=
  C7_no_params_no_validation sampleSchema Option.none .none false
    c7fi .none rfl rfl

/-- C10 counterexample: a zero-parameter callable whose args schema is a
bare `$ref` dict (no `properties` key): the loop body never executes, so
no key lookup occurs; the invocation succeeds and the wrapped callable
runs (state advances from 0 to 1) — refuting "every invocation fails
with a key-lookup error". -/
theorem C10_counterexample :
    wrapper (fun _ _ => true) c10ann
      (fun (n : Nat) _ _ => (JValue.num 5, n + 1)) 0 [] [] =
      (.ok (JValue.num 5), 1) := rfl

/-- C10 amended: if the args schema is a mapping without a `properties`
key and the callable has at least one declared argument name, every
invocation fails with `KeyError` inside `collect_properties` before the
wrapped callable runs (state unchanged), whatever the arguments and
validator. -/
theorem C10_missing_properties (ann : Annot) (d : SchemaDict)
    (has : ann.args_schema = some d)
    (hnp : alookup "properties" d = Option.none)
    (hne : ann.arg_names ≠ []) :
    ∀ (σ : Type) (validate : JValue → JValue → Bool)
      (func : σ → List JValue → List (String × JValue) → JValue × σ)
      (s : σ) (args : List JValue) (kwargs : List (String × JValue)),
      wrapper validate ann func s args kwargs = (.error .keyError, s) := by
  intro σ validate func s args kwargs
  cases han : ann.arg_names with
  | nil => exact absurd han hne
  | cons a t =>
    have hcp : collect_properties d (a :: t) args kwargs =
        .error .keyError := by
      unfold collect_properties
      simp [collectLoop, hnp]
    unfold wrapper
    rw [has, han]
    simp [hcp]

/-- Witness for C10 (amended): one declared argument, valid call, the
wrapper still fails with `KeyError` and the callable never runs. -/
theorem C10_witness :
    wrapper (fun _ _ => true) c10ann1
      (fun (n : Nat) _ _ => (JValue.num 5, n + 1)) 0 [JValue.str "ok"] [] =
      (.error .keyError, 0) :=
  C10_missing_properties c10ann1 [("$ref", .str (defRef "a"))] rfl rfl
    (List.cons_ne_nil "a" []) Nat (fun _ _ => true)
    (fun n _ _ => (JValue.num 5, n + 1)) 0 [JValue.str "ok"] []

/-- Witness for C9: three stacked decorators over a root callable. -/
theorem C9_witness :
    get_wrapped (applyChain
      [fun _ => .mk 1 Option.none, fun _ => .mk 2 Option.none,
       fun _ => .mk 3 Option.none] (.mk 0 Option.none)) =
      .mk 0 Option.none :=
  (C9_get_wrapped_chain
    [fun _ => .mk 1 Option.none, fun _ => .mk 2 Option.none,
     fun _ => .mk 3 Option.none] (.mk 0 Option.none) rfl).1

end Doctor
